import Mathlib

/-!
# go-af-alg: SHA-1 through the Linux AF_ALG socket family

A shallow embedding of `sha1/sha1.go`, `sha1/sha1_linux.go` and
`sha1/sha1_default.go`.

The Go code is a thin layer over system calls, so the embedding makes the
operating system explicit: every system call the code issues is appended to a
chronological trace together with the answer it received, and the answer is
chosen by an arbitrary function of the history and of the call (`OS`).  A
statement quantified over all `OS` therefore holds for every outcome of every
system call.

Go `int` and `uintptr` are 64 bit (the file is built with `!386`); they are
modelled by `Int` and `Nat` with the conversions written out.

The session's `sync.Mutex` is not represented: the embedding is sequential, the
mutex is free whenever a method is entered and `Close` releases it before it
returns.
-/

namespace AfAlg

/-! ## Basic data -/

/-- One octet. -/
abbrev Byte := Fin 256

/-- Constant `Size` of sha1.go (`crypto/sha1.Size`). -/
def Size : Nat := 20

/-- Constant `BlockSize` of sha1.go (`crypto/sha1.BlockSize`). -/
def BlockSize : Nat := 64

/-- The zero value of `[Size]byte`. -/
def zeroDigest : List Byte := List.replicate Size 0

/-- Go conversion `int(u)` of a `uintptr` on a 64-bit target. -/
def intOfUintptr (u : Nat) : Int :=
  if u % 2 ^ 64 < 2 ^ 63 then ((u % 2 ^ 64 : Nat) : Int) else ((u % 2 ^ 64 : Nat) : Int) - 2 ^ 64

/-- Go conversion `uintptr(i)` of an `int` on a 64-bit target. -/
def uintptrOfInt (i : Int) : Nat := (i % 2 ^ 64).toNat

/-- Conversion `C.int(i)` of a Go `int` (truncation to 32 bits, two's complement). -/
def toCInt (i : Int) : Int := (i + 2 ^ 31) % 2 ^ 32 - 2 ^ 31

/-- Go's builtin `copy(dst, src)`: the first `min (len dst) (len src)` elements
of `dst` are overwritten.  Also the effect of the kernel filling a user buffer. -/
def copyInto (dst src : List Byte) : List Byte :=
  src.take dst.length ++ dst.drop (src.take dst.length).length

/-! ## Constants of package syscall (linux) and the cgo preamble -/

def AF_ALG : Int := 38
def SOCK_SEQPACKET : Int := 5
def MSG_MORE : Nat := 0x8000

/-- The C type `struct sockaddr_alg` restricted to the fields the preamble sets. -/
structure sockaddr_alg where
  salg_family : Int
  salg_type : String
  salg_name : String
  deriving DecidableEq, Repr

/-- The C global `sha1_sa` of the cgo preamble. -/
def sha1_sa : sockaddr_alg := ⟨AF_ALG, "hash", "sha1"⟩

/-- Value of `unsafe.Sizeof(C.sha1_sa)`: 2 + 14 + 4 + 4 + 64 bytes. -/
def sizeof_sha1_sa : Nat := 88

/-! ## The operating system -/

/-- A system call as issued by the Go code, with its arguments. -/
inductive Call where
  /-- The call `syscall.Socket(domain, typ, proto)`. -/
  | socket (domain typ proto : Int)
  /-- The call `C.bind(fd, addr, addrlen)`. -/
  | bind (fd : Int) (addr : sockaddr_alg) (addrlen : Nat)
  /-- The call `syscall.Syscall(SYS_ACCEPT, fd, addr, addrlen)`. -/
  | accept (fd addr addrlen : Nat)
  /-- The call `syscall.Syscall6(SYS_SENDTO, fd, buf, len, flags, addr, addrlen)`;
  `buf` is the memory the pointer argument designates. -/
  | sendto (fd : Nat) (buf : List Byte) (len flags addr addrlen : Nat)
  /-- The call `syscall.Read(fd, p)` with `count = len(p)`. -/
  | read (fd : Int) (count : Nat)
  /-- The call `syscall.Close(fd)`. -/
  | close (fd : Int)
  deriving DecidableEq, Repr

/-- Answer of the kernel to one call: success with a return value (and the
bytes it stored through a buffer argument, used by `read` only), or failure
with an error number. -/
inductive Resp where
  | ok (r1 : Nat) (bytes : List Byte)
  | fail (errno : Nat)
  deriving DecidableEq, Repr

/-- A performed call and its answer. -/
abbrev Event := Call × Resp

/-- Chronological record of the calls performed so far (oldest first). -/
abbrev Trace := List Event

/-- The operating system: it answers a call knowing everything that happened before. -/
abbrev OS := Trace → Call → Resp

/-- Perform one call: ask the kernel and record the event. -/
def sys (os : OS) (tr : Trace) (c : Call) : Resp × Trace :=
  (os tr c, tr ++ [(c, os tr c)])

/-- First result `r1` of Go's `syscall.Syscall`: the return value, or all ones
when the call failed. -/
def Resp.r1 : Resp → Nat
  | .ok r _ => r % 2 ^ 64
  | .fail _ => 2 ^ 64 - 1

/-- Third result of Go's `syscall.Syscall`: the `syscall.Errno`, 0 on success. -/
def Resp.err : Resp → Nat
  | .ok _ _ => 0
  | .fail e => e

/-- Bytes the kernel stored through a buffer argument. -/
def Resp.stored : Resp → List Byte
  | .ok _ bytes => bytes
  | .fail _ => []

/-! ## Go errors -/

/-- Operand of a `%v` verb in the calls of `fmt.Errorf` that occur in the package. -/
inductive FmtArg where
  /-- An operand of interface type `error`: nil, or a `syscall.Errno`. -/
  | error (e : Option Nat)
  /-- An operand of type `syscall.Errno`. -/
  | errno (e : Nat)
  deriving DecidableEq, Repr

/-- The non-nil values of type `error` the package produces. -/
inductive GoError where
  /-- A bare `syscall.Errno`. -/
  | errno (e : Nat)
  /-- Result of `fmt.Errorf(format, args...)`, kept unrendered. -/
  | errorf (format : String) (args : List FmtArg)
  deriving DecidableEq, Repr

/-- Go wrapper `syscall.Socket`: `fd = int(r0)`, `err = e1` when `e1 != 0`. -/
def syscall_Socket (os : OS) (domain typ proto : Int) (tr : Trace) :
    (Int × Option Nat) × Trace :=
  let (r, tr1) := sys os tr (.socket domain typ proto)
  ((intOfUintptr r.r1, if r.err ≠ 0 then some r.err else none), tr1)

/-- The libc function `bind` called through cgo: 0 on success, -1 on failure. -/
def C_bind (os : OS) (fd : Int) (addr : sockaddr_alg) (addrlen : Nat) (tr : Trace) :
    Int × Trace :=
  let (r, tr1) := sys os tr (.bind fd addr addrlen)
  (match r with
   | .ok v _ => toCInt (intOfUintptr v)
   | .fail _ => -1, tr1)

/-- Go wrapper `syscall.Read`: `n = int(r0)`, `err = e1` when `e1 != 0`; the
kernel stores at most `len(p)` bytes at the start of `p`. -/
def syscall_Read (os : OS) (fd : Int) (p : List Byte) (tr : Trace) :
    (Int × Option Nat) × List Byte × Trace :=
  let (r, tr1) := sys os tr (.read fd p.length)
  ((intOfUintptr r.r1, if r.err ≠ 0 then some r.err else none), copyInto p r.stored, tr1)

/-- Go wrapper `syscall.Close`; the package ignores its result. -/
def syscall_Close (os : OS) (fd : Int) (tr : Trace) : Option Nat × Trace :=
  let (r, tr1) := sys os tr (.close fd)
  (if r.err ≠ 0 then some r.err else none, tr1)

/-! ## sha1_linux.go -/

/-- The struct `afalg`.  `finalizer` records whether the run-time system holds
a finalizer for the object (`runtime.SetFinalizer`). -/
structure afalg where
  tfm_fd : Int
  op_fd : Int
  finalizer : Bool
  deriving DecidableEq, Repr

/-- Method `(*afalg).Close`. -/
def afalg.Close (os : OS) (a : afalg) (tr : Trace) : afalg × Trace :=
  let (a1, tr1) :=
    if a.op_fd ≠ -1 then
      let (_, t) := syscall_Close os a.op_fd tr
      (afalg.mk a.tfm_fd (-1) a.finalizer, t)
    else (a, tr)
  let (a2, tr2) :=
    if a1.tfm_fd ≠ -1 then
      let (_, t) := syscall_Close os a1.tfm_fd tr1
      (afalg.mk (-1) a1.op_fd a1.finalizer, t)
    else (a1, tr1)
  (afalg.mk a2.tfm_fd a2.op_fd false, tr2)

/-- Function `newAfalg`.  The first component is the returned pointer (`none`
is nil), the second the returned error. -/
def newAfalg (os : OS) (tr : Trace) : (Option afalg × Option GoError) × Trace :=
  let a0 : afalg := ⟨-1, -1, true⟩
  let ((fd, err), tr1) := syscall_Socket os AF_ALG SOCK_SEQPACKET 0 tr
  let a1 : afalg := ⟨fd, a0.op_fd, a0.finalizer⟩
  if err ≠ none ∨ a1.tfm_fd = -1 then
    let (_, tr2) := afalg.Close os a1 tr1
    ((none, some (.errorf "failed creating af_alg socket: %v" [.error err])), tr2)
  else
    let (rc, tr2) := C_bind os (toCInt a1.tfm_fd) sha1_sa sizeof_sha1_sa tr1
    if rc ≠ 0 then
      let (_, tr3) := afalg.Close os a1 tr2
      ((none, some (.errorf "failed binding af_alg connection" [])), tr3)
    else
      let (r, tr3) := sys os tr2 (.accept (uintptrOfInt a1.tfm_fd) 0 0)
      let a2 : afalg := ⟨a1.tfm_fd, intOfUintptr r.r1, a1.finalizer⟩
      if r.err ≠ 0 ∨ a2.op_fd = -1 then
        let (_, tr4) := afalg.Close os a2 tr3
        ((none, some (.errorf "failed accepting af_alg connection: %v" [.errno r.err])), tr4)
      else
        ((some a2, none), tr3)

/-- Method `(*afalg).Write`. -/
def afalg.Write (os : OS) (a : afalg) (data : List Byte) (tr : Trace) :
    (Int × Option GoError) × afalg × Trace :=
  if data.length = 0 then ((0, none), a, tr)
  else
    let (r, tr1) := sys os tr (.sendto (uintptrOfInt a.op_fd) data data.length MSG_MORE 0 0)
    if r.err ≠ 0 then ((0, some (.errno r.err)), a, tr1)
    else ((data.length, none), a, tr1)

/-- Method `(*afalg).Sum`. -/
def afalg.Sum (os : OS) (a : afalg) (tr : Trace) :
    (List Byte × Option GoError) × afalg × Trace :=
  let ((n, err), md, tr1) := syscall_Read os a.op_fd zeroDigest tr
  match err with
  | some e => ((md, some (.errno e)), a, tr1)
  | none =>
    if n ≠ Size then ((md, some (.errorf "invalid sha1 length" [])), a, tr1)
    else ((md, none), a, tr1)

/-! ## Sequences of operations on one session -/

/-- Successive calls of `Write` on one session, one per chunk, results dropped. -/
def writeAll (os : OS) (a : afalg) : List (List Byte) → Trace → afalg × Trace
  | [], tr => (a, tr)
  | d :: ds, tr => writeAll os (afalg.Write os a d tr).2.1 ds (afalg.Write os a d tr).2.2

/-- An operation of the `Hasher` interface applied to an existing session. -/
inductive Op where
  | write (data : List Byte)
  | sum
  | close
  deriving DecidableEq, Repr

/-- Apply one operation to a session. -/
def step (os : OS) (a : afalg) (tr : Trace) : Op → afalg × Trace
  | .write d => (afalg.Write os a d tr).2
  | .sum => (afalg.Sum os a tr).2
  | .close => afalg.Close os a tr

/-- Apply a sequence of operations to a session, in order. -/
def run (os : OS) (a : afalg) (tr : Trace) : List Op → afalg × Trace
  | [] => (a, tr)
  | op :: ops => run os (step os a tr op).1 (step os a tr op).2 ops

/-- An operating system for examples: the call made when the history has `i`
events is answered by the `i`-th entry of the script, and by failure with
EBADF (9) once the script is exhausted. -/
def scripted (rs : List Resp) : OS := fun tr _ => rs.getD tr.length (.fail 9)

/-- The bytes handed to the kernel by the sendto calls of a trace, in order. -/
def sentBytes : Trace → List Byte
  | [] => []
  | (.sendto _ buf len _ _ _, _) :: rest => buf.take len ++ sentBytes rest
  | _ :: rest => sentBytes rest

/-! ## The calls of newAfalg, named -/

/-- The socket call of `newAfalg`. -/
def sockCall : Call := .socket AF_ALG SOCK_SEQPACKET 0

/-- The socket event of `newAfalg` started with history `tr`. -/
def sockEv (os : OS) (tr : Trace) : Event := (sockCall, os tr sockCall)

/-- The value `newAfalg` stores in `tfm_fd`. -/
def sockFd (os : OS) (tr : Trace) : Int := intOfUintptr (os tr sockCall).r1

/-- The error result of `syscall.Socket` in `newAfalg`. -/
def sockErr (os : OS) (tr : Trace) : Option Nat :=
  if (os tr sockCall).err ≠ 0 then some (os tr sockCall).err else none

/-- The first guard of `newAfalg`: `err != nil || a.tfm_fd == -1`. -/
def sockFailed (os : OS) (tr : Trace) : Prop := sockErr os tr ≠ none ∨ sockFd os tr = -1

instance (os : OS) (tr : Trace) : Decidable (sockFailed os tr) := by
  unfold sockFailed; infer_instance

/-- The bind call of `newAfalg`. -/
def bindCall (os : OS) (tr : Trace) : Call :=
  .bind (toCInt (sockFd os tr)) sha1_sa sizeof_sha1_sa

/-- The bind event of `newAfalg`. -/
def bindEv (os : OS) (tr : Trace) : Event :=
  (bindCall os tr, os (tr ++ [sockEv os tr]) (bindCall os tr))

/-- The value `C.bind` returns in `newAfalg`. -/
def bindRet (os : OS) (tr : Trace) : Int :=
  (C_bind os (toCInt (sockFd os tr)) sha1_sa sizeof_sha1_sa (tr ++ [sockEv os tr])).1

/-- The accept call of `newAfalg`. -/
def acceptCall (os : OS) (tr : Trace) : Call := .accept (uintptrOfInt (sockFd os tr)) 0 0

/-- The answer to the accept call of `newAfalg`. -/
def acceptResp (os : OS) (tr : Trace) : Resp :=
  os (tr ++ [sockEv os tr, bindEv os tr]) (acceptCall os tr)

/-- The accept event of `newAfalg`. -/
def acceptEv (os : OS) (tr : Trace) : Event := (acceptCall os tr, acceptResp os tr)

/-- The value `newAfalg` stores in `op_fd`. -/
def acceptFd (os : OS) (tr : Trace) : Int := intOfUintptr (acceptResp os tr).r1

/-- The third guard of `newAfalg`: `e != 0 || a.op_fd == -1`. -/
def acceptFailed (os : OS) (tr : Trace) : Prop :=
  (acceptResp os tr).err ≠ 0 ∨ acceptFd os tr = -1

instance (os : OS) (tr : Trace) : Decidable (acceptFailed os tr) := by
  unfold acceptFailed; infer_instance

/-- The descriptors a trace shows as obtained: the results of the socket and
accept calls that reported no error and did not return -1. -/
def acquired : Trace → List Int
  | [] => []
  | (.socket _ _ _, r) :: rest =>
    if r.err = 0 ∧ intOfUintptr r.r1 ≠ -1 then intOfUintptr r.r1 :: acquired rest
    else acquired rest
  | (.accept _ _ _, r) :: rest =>
    if r.err = 0 ∧ intOfUintptr r.r1 ≠ -1 then intOfUintptr r.r1 :: acquired rest
    else acquired rest
  | _ :: rest => acquired rest

/-! ## Properties of errors and of the kernel used in the statements -/

/-- Whether an error is a formatted message (as opposed to a bare error number). -/
def GoError.isMessage : GoError → Bool
  | .errorf _ _ => true
  | .errno _ => false

/-- Whether an error carries the error number `e`, as itself or as an operand
of its message. -/
def GoError.carriesErrno : GoError → Nat → Bool
  | .errno e0, e => e0 == e
  | .errorf _ args, e => args.contains (.errno e) || args.contains (.error (some e))

/-- Calls whose successful result is a new file descriptor. -/
def returnsFd : Call → Bool
  | .socket _ _ _ => true
  | .accept _ _ _ => true
  | _ => false

/-- The kernel's contract for descriptors: a successful socket or accept
returns a non-negative C `int`. -/
def FdContract (os : OS) : Prop :=
  ∀ (tr : Trace) (c : Call) (r : Nat) (b : List Byte),
    returnsFd c = true → os tr c = .ok r b → r < 2 ^ 31

/-- Whether a returned error is a formatted message that carries the error number `e`. -/
def wrapsErrno (err : Option GoError) (e : Nat) : Bool :=
  match err with
  | some g => g.isMessage && g.carriesErrno e
  | none => false

/-! ## sha1_default.go -/

/-- The struct `hashWrapper`.  Its field `h` is a `crypto/sha1` hash, represented
by the bytes written to it so far. -/
structure hashWrapper where
  h : List Byte
  deriving DecidableEq, Repr

/-- Function `New` of sha1_default.go. -/
def hashWrapper.New : Option hashWrapper × Option GoError := (some ⟨[]⟩, none)

/-- Method `hashWrapper.Write`: `crypto/sha1` accepts every byte and never fails. -/
def hashWrapper.Write (hw : hashWrapper) (data : List Byte) :
    (Int × Option GoError) × hashWrapper :=
  ((data.length, none), ⟨hw.h ++ data⟩)

/-- Method `hashWrapper.Sum`.  `digest` is the checksum function of `crypto/sha1`
(`h.h.Sum(nil)` is the checksum of the bytes written so far). -/
def hashWrapper.Sum (digest : List Byte → List Byte) (hw : hashWrapper) :
    (List Byte × Option GoError) × hashWrapper :=
  ((copyInto zeroDigest (digest hw.h), none), hw)

/-- Method `hashWrapper.Close`. -/
def hashWrapper.Close (hw : hashWrapper) : hashWrapper := hw

/-! ## sha1.go -/

/-- The interface `Hasher` with the function `New` of one build: the methods act
on a receiver of type `σ` and on a world of type `W`. -/
structure Hasher (σ W : Type) where
  New : W → (Option σ × Option GoError) × W
  Write : σ → List Byte → W → (Int × Option GoError) × σ × W
  Sum : σ → W → (List Byte × Option GoError) × σ × W
  Close : σ → W → σ × W

/-- Function `SHA1`.  The result is `none` when the function panics (a method
call on a nil `Hasher`); the deferred `Close` runs after the results are set. -/
def SHA1 {σ W : Type} (H : Hasher σ W) (data : List Byte) (w : W) :
    Option ((List Byte × Option GoError) × W) :=
  match H.New w with
  | ((_, some err), w1) => some ((zeroDigest, some err), w1)
  | ((none, none), _) => none
  | ((some hash, none), w1) =>
    match H.Write hash data w1 with
    | ((_, some err), hash1, w2) => some ((zeroDigest, some err), (H.Close hash1 w2).2)
    | ((_, none), hash1, w2) =>
      some ((H.Sum hash1 w2).1, (H.Close (H.Sum hash1 w2).2.1 (H.Sum hash1 w2).2.2).2)

/-- The build of sha1_linux.go: `New` is `newAfalg`, the methods are those of `*afalg`. -/
def linuxHasher (os : OS) : Hasher afalg Trace where
  New := newAfalg os
  Write := afalg.Write os
  Sum := afalg.Sum os
  Close := afalg.Close os

/-- The build of sha1_default.go; it touches no world. -/
def defaultHasher (digest : List Byte → List Byte) : Hasher hashWrapper Unit where
  New := fun w => (hashWrapper.New, w)
  Write := fun hw data w => ((hw.Write data).1, (hw.Write data).2, w)
  Sum := fun hw w => ((hw.Sum digest).1, (hw.Sum digest).2, w)
  Close := fun hw w => (hw.Close, w)

/-- A call made through the `Hasher` interface. -/
inductive MethodCall where
  | New
  | Write (data : List Byte)
  | Sum
  | Close
  deriving DecidableEq, Repr

/-- The same hasher with every call through the interface recorded, in order. -/
def logged {σ W : Type} (H : Hasher σ W) : Hasher σ (W × List MethodCall) where
  New := fun w => ((H.New w.1).1, ((H.New w.1).2, w.2 ++ [.New]))
  Write := fun s data w =>
    ((H.Write s data w.1).1, (H.Write s data w.1).2.1,
      ((H.Write s data w.1).2.2, w.2 ++ [.Write data]))
  Sum := fun s w => ((H.Sum s w.1).1, (H.Sum s w.1).2.1, ((H.Sum s w.1).2.2, w.2 ++ [.Sum]))
  Close := fun s w => ((H.Close s w.1).1, ((H.Close s w.1).2, w.2 ++ [.Close]))

/-! ## The checksum of crypto/sha1

The Go standard library is not part of the repository.  The theorems below take
its checksum as an arbitrary function; for the examples it is written out here
after FIPS 180-4. -/

/-- Rotation of a 32-bit word to the left. -/
def rotl32 (x n : Nat) : Nat := ((x <<< n) ||| (x >>> (32 - n))) % 2 ^ 32

/-- The `k` low-order bytes of `v`, most significant first. -/
def beBytes : Nat → Nat → List Byte
  | 0, _ => []
  | k + 1, v => Fin.ofNat ((v >>> (8 * k)) % 256) :: beBytes k v

/-- SHA-1 padding: a byte 0x80, zeros up to 56 modulo 64, the bit length on 8 bytes. -/
def sha1Pad (msg : List Byte) : List Byte :=
  msg ++ [0x80] ++ List.replicate ((119 - msg.length % 64) % 64) 0 ++ beBytes 8 (8 * msg.length)

/-- Big-endian 32-bit words of a byte string. -/
def beWords : List Byte → List Nat
  | b0 :: b1 :: b2 :: b3 :: rest =>
    (b0.val * 2 ^ 24 + b1.val * 2 ^ 16 + b2.val * 2 ^ 8 + b3.val) :: beWords rest
  | _ => []

/-- One step of the message schedule; the schedule is kept newest word first. -/
def sha1Extend (ws : List Nat) : List Nat :=
  rotl32 (ws.getD 2 0 ^^^ ws.getD 7 0 ^^^ ws.getD 13 0 ^^^ ws.getD 15 0) 1 :: ws

/-- The 80 words of the message schedule of a 16-word block. -/
def sha1Schedule (block : List Nat) : List Nat :=
  (Nat.iterate sha1Extend 64 block.reverse).reverse

/-- The five working variables, also the chaining value. -/
structure Sha1State where
  a : Nat
  b : Nat
  c : Nat
  d : Nat
  e : Nat
  deriving DecidableEq, Repr

/-- The round function and round constant of round `t`. -/
def sha1F (t b c d : Nat) : Nat × Nat :=
  if t < 20 then ((b &&& c) ||| ((b ^^^ 0xFFFFFFFF) &&& d), 0x5A827999)
  else if t < 40 then (b ^^^ c ^^^ d, 0x6ED9EBA1)
  else if t < 60 then ((b &&& c) ||| (b &&& d) ||| (c &&& d), 0x8F1BBCDC)
  else (b ^^^ c ^^^ d, 0xCA62C1D6)

/-- One of the 80 rounds; `tw` is the round number and the schedule word. -/
def sha1Round (s : Sha1State) (tw : Nat × Nat) : Sha1State :=
  ⟨(rotl32 s.a 5 + (sha1F tw.1 s.b s.c s.d).1 + s.e + (sha1F tw.1 s.b s.c s.d).2 + tw.2) % 2 ^ 32,
    s.a, rotl32 s.b 30, s.c, s.d⟩

/-- The compression function on one 16-word block. -/
def sha1Compress (h : Sha1State) (block : List Nat) : Sha1State :=
  ⟨(h.a + (((List.range 80).zip (sha1Schedule block)).foldl sha1Round h).a) % 2 ^ 32,
   (h.b + (((List.range 80).zip (sha1Schedule block)).foldl sha1Round h).b) % 2 ^ 32,
   (h.c + (((List.range 80).zip (sha1Schedule block)).foldl sha1Round h).c) % 2 ^ 32,
   (h.d + (((List.range 80).zip (sha1Schedule block)).foldl sha1Round h).d) % 2 ^ 32,
   (h.e + (((List.range 80).zip (sha1Schedule block)).foldl sha1Round h).e) % 2 ^ 32⟩

/-- The first `n` blocks of 16 words. -/
def sha1Blocks : Nat → List Nat → List (List Nat)
  | 0, _ => []
  | n + 1, ws => ws.take 16 :: sha1Blocks n (ws.drop 16)

/-- The SHA-1 checksum of a byte string, as `crypto/sha1` computes it. -/
def crypto_sha1_Sum (msg : List Byte) : List Byte :=
  beBytes 4 ((sha1Blocks ((beWords (sha1Pad msg)).length / 16) (beWords (sha1Pad msg))).foldl
      sha1Compress ⟨0x67452301, 0xEFCDAB89, 0x98BADCFE, 0x10325476, 0xC3D2E1F0⟩).a
  ++ beBytes 4 ((sha1Blocks ((beWords (sha1Pad msg)).length / 16) (beWords (sha1Pad msg))).foldl
      sha1Compress ⟨0x67452301, 0xEFCDAB89, 0x98BADCFE, 0x10325476, 0xC3D2E1F0⟩).b
  ++ beBytes 4 ((sha1Blocks ((beWords (sha1Pad msg)).length / 16) (beWords (sha1Pad msg))).foldl
      sha1Compress ⟨0x67452301, 0xEFCDAB89, 0x98BADCFE, 0x10325476, 0xC3D2E1F0⟩).c
  ++ beBytes 4 ((sha1Blocks ((beWords (sha1Pad msg)).length / 16) (beWords (sha1Pad msg))).foldl
      sha1Compress ⟨0x67452301, 0xEFCDAB89, 0x98BADCFE, 0x10325476, 0xC3D2E1F0⟩).d
  ++ beBytes 4 ((sha1Blocks ((beWords (sha1Pad msg)).length / 16) (beWords (sha1Pad msg))).foldl
      sha1Compress ⟨0x67452301, 0xEFCDAB89, 0x98BADCFE, 0x10325476, 0xC3D2E1F0⟩).e

/-! ## The kernel's AF_ALG hash sockets (af_alg, algif_hash)

The kernel is not part of the repository either.  What follows is the part of
its behaviour the package relies on, read off from a history: which descriptors
are AF_ALG sockets, what they were bound to, which are operation sockets, and
which bytes their hash has taken in so far. -/

/-- What a history tells about one descriptor. -/
inductive FdInfo where
  /-- Nothing is known (never returned, closed, touched by a failed call or by a
  call outside the protocol below). -/
  | unknown
  /-- Returned by `socket(AF_ALG, SOCK_SEQPACKET, 0)`, not bound yet. -/
  | algSocket
  /-- An AF_ALG socket bound to the transform of type `typ` named `name`. -/
  | algBound (typ name : String)
  /-- An operation socket of the hash named `name`, returned by accept on a bound
  socket; `input` is what the hash has taken in since the last result. -/
  | hashOp (name : String) (input : List Byte)
  deriving DecidableEq, Repr

/-- The table of descriptors, indexed by the C `int` the kernel sees. -/
abbrev FdTable := Int → FdInfo

/-- Replace the entry of descriptor `k`. -/
def setFd (st : FdTable) (k : Int) (v : FdInfo) : FdTable := fun x => if x = k then v else st x

/-- The C `int` the kernel makes of a descriptor passed as a `uintptr`. -/
def kfd (u : Nat) : Int := toCInt (intOfUintptr u)

/-- Effect of one event on the table.  A successful socket call yields an
AF_ALG socket when the arguments are AF_ALG (38), SOCK_SEQPACKET (5) and 0.  A
successful bind of an AF_ALG socket to an address of family AF_ALG and length
88 records the transform type and name.  A successful accept on a socket bound
to a transform of type "hash" yields an operation socket of that hash with
empty input.  A successful send with flags MSG_MORE (0x8000) on an operation
socket adds the bytes the kernel took: the first `r` of the `len` bytes
offered, `r` being the count it returned.  A successful read on an operation
socket delivers the result and starts afresh.  Close, and every failed call on
a descriptor, leave nothing known about it. -/
def kernelStep (st : FdTable) (ev : Event) : FdTable :=
  match ev with
  | (.socket domain typ proto, .ok r _) =>
    setFd st (r : Int) (if domain = 38 ∧ typ = 5 ∧ proto = 0 then .algSocket else .unknown)
  | (.bind fd addr addrlen, .ok v _) =>
    match st fd with
    | .algSocket =>
      if toCInt (intOfUintptr v) = 0 ∧ addr.salg_family = 38 ∧ addrlen = 88 then
        setFd st fd (.algBound addr.salg_type addr.salg_name)
      else setFd st fd .unknown
    | _ => setFd st fd .unknown
  | (.bind fd _ _, .fail _) => setFd st fd .unknown
  | (.accept fd _ _, .ok r _) =>
    match st (kfd fd) with
    | .algBound typ name =>
      if typ = "hash" then setFd st (r : Int) (.hashOp name []) else setFd st (r : Int) .unknown
    | _ => setFd st (r : Int) .unknown
  | (.sendto fd buf len flags _ _, .ok r _) =>
    match st (kfd fd) with
    | .hashOp name input =>
      if flags = 0x8000 then setFd st (kfd fd) (.hashOp name (input ++ (buf.take len).take r))
      else setFd st (kfd fd) .unknown
    | _ => setFd st (kfd fd) .unknown
  | (.sendto fd _ _ _ _ _, .fail _) => setFd st (kfd fd) .unknown
  | (.read fd _, .ok _ _) =>
    match st (toCInt fd) with
    | .hashOp name _ => setFd st (toCInt fd) (.hashOp name [])
    | _ => setFd st (toCInt fd) .unknown
  | (.read fd _, .fail _) => setFd st (toCInt fd) .unknown
  | (.close fd, _) => setFd st (toCInt fd) .unknown
  | _ => st

/-- The table of descriptors after a history. -/
def kernelState (tr : Trace) : FdTable := tr.foldl kernelStep (fun _ => .unknown)

/-- The contract of the kernel with respect to a checksum function `digest`
standing for SHA-1: successful socket and accept calls return non-negative C
`int`s, and a successful read of 20 bytes on an operation socket of the hash
named "sha1" stores the checksum of the input that hash has taken in. -/
def KernelContract (os : OS) (digest : List Byte → List Byte) : Prop :=
  FdContract os
  ∧ ∀ (tr : Trace) (fd : Int) (input : List Byte) (r : Nat) (b : List Byte),
      kernelState tr (toCInt fd) = .hashOp "sha1" input →
      os tr (.read fd 20) = .ok r b → b = digest input

/-- The answer to the sendto call of `Write` when `SHA1` runs on the Linux build
from history `tr` and `newAfalg` succeeds. -/
def sendResp (os : OS) (tr : Trace) (data : List Byte) : Resp :=
  os (tr ++ [sockEv os tr, bindEv os tr, acceptEv os tr])
    (.sendto (uintptrOfInt (acceptFd os tr)) data data.length MSG_MORE 0 0)

/-- A simulated kernel for examples: socket returns 3, bind succeeds, accept
returns 4, a send of `len` bytes returns the count `taken len`, and a read on an
operation socket of the hash "sha1" returns 20 bytes, the checksum of the input
taken in so far; any other read fails with EBADF (9). -/
def simKernel (digest : List Byte → List Byte) (taken : Nat → Nat) : OS := fun tr c =>
  match c with
  | .socket _ _ _ => .ok 3 []
  | .bind _ _ _ => .ok 0 []
  | .accept _ _ _ => .ok 4 []
  | .sendto _ _ len _ _ _ => .ok (taken len) []
  | .read fd _ =>
    match kernelState tr (toCInt fd) with
    | .hashOp name input => if name = "sha1" then .ok 20 (digest input) else .fail 9
    | _ => .fail 9
  | .close _ => .ok 0 []

/-! ## Observations on traces -/

/-- The descriptors passed to `syscall.Close`, in order. -/
def closedFds : Trace → List Int
  | [] => []
  | (.close fd, _) :: rest => fd :: closedFds rest
  | _ :: rest => closedFds rest

/-- The event a `syscall.Close(fd)` issued after history `tr` leaves in the trace. -/
def closeEvent (os : OS) (tr : Trace) (fd : Int) : Event := (.close fd, os tr (.close fd))

/-- The events `Close` adds for the operation descriptor. -/
def closeOpEvents (os : OS) (a : afalg) (tr : Trace) : Trace :=
  if a.op_fd ≠ -1 then [closeEvent os tr a.op_fd] else []

/-- The events `Close` adds for the transform descriptor, after those of the
operation descriptor. -/
def closeTfmEvents (os : OS) (a : afalg) (tr : Trace) : Trace :=
  if a.tfm_fd ≠ -1 then [closeEvent os (tr ++ closeOpEvents os a tr) a.tfm_fd] else []

/-! ## Lemmas on Close -/

theorem Close_eq (os : OS) (a : afalg) (tr : Trace) :
    afalg.Close os a tr
      = (⟨-1, -1, false⟩, tr ++ closeOpEvents os a tr ++ closeTfmEvents os a tr) := by
  rcases a with ⟨t, o, f⟩
  by_cases ho : o = -1 <;> by_cases ht : t = -1 <;>
    simp [afalg.Close, syscall_Close, sys, closeOpEvents, closeTfmEvents, closeEvent, ho, ht]

theorem Close_closed (os : OS) (f : Bool) (tr : Trace) :
    afalg.Close os ⟨-1, -1, f⟩ tr = (⟨-1, -1, false⟩, tr) := by
  simp [Close_eq, closeOpEvents, closeTfmEvents]

theorem closedFds_append (t1 t2 : Trace) :
    closedFds (t1 ++ t2) = closedFds t1 ++ closedFds t2 := by
  induction t1 with
  | nil => simp [closedFds]
  | cons e rest ih =>
    rcases e with ⟨c, r⟩
    cases c <;> simp [closedFds, ih]

/-! ## Claims -/

/-- C1: Close is idempotent. For every session state and every behaviour of the
operating system, a second Close directly after a first one returns the state the
first one produced, which has both descriptors equal to -1, and adds no event to
the trace: it issues no system call at all. -/
theorem C1_Close_idempotent (os : OS) (a : afalg) (tr : Trace) :
    afalg.Close os (afalg.Close os a tr).1 (afalg.Close os a tr).2 = afalg.Close os a tr
    ∧ (afalg.Close os a tr).1.tfm_fd = -1
    ∧ (afalg.Close os a tr).1.op_fd = -1
    ∧ (afalg.Close os (afalg.Close os a tr).1 (afalg.Close os a tr).2).2
        = (afalg.Close os a tr).2 := by
  have hfirst : afalg.Close os a tr
      = (⟨-1, -1, false⟩, tr ++ closeOpEvents os a tr ++ closeTfmEvents os a tr) :=
    Close_eq os a tr
  have hsecond : afalg.Close os ⟨-1, -1, false⟩
      (tr ++ closeOpEvents os a tr ++ closeTfmEvents os a tr)
      = (⟨-1, -1, false⟩, tr ++ closeOpEvents os a tr ++ closeTfmEvents os a tr) :=
    Close_closed os false _
  rw [hfirst]
  refine ⟨hsecond, rfl, rfl, ?_⟩
  rw [hsecond]

/-- C10: a single Close, whatever the operating system answers, appends to the
trace a close of op_fd exactly when op_fd is not -1, followed by a close of tfm_fd
exactly when tfm_fd is not -1, and nothing else; it ends with both fields equal to
-1 and no finalizer registered. The method has no result, so nothing is reported;
the close of tfm_fd is issued whether or not the close of op_fd failed. -/
theorem C10_Close_single (os : OS) (a : afalg) (tr : Trace) :
    (afalg.Close os a tr).1 = ⟨-1, -1, false⟩
    ∧ (afalg.Close os a tr).2 = tr ++ closeOpEvents os a tr ++ closeTfmEvents os a tr
    ∧ (closeOpEvents os a tr).map Prod.fst = (if a.op_fd ≠ -1 then [Call.close a.op_fd] else [])
    ∧ (closeTfmEvents os a tr).map Prod.fst
        = (if a.tfm_fd ≠ -1 then [Call.close a.tfm_fd] else [])
    ∧ closedFds (closeOpEvents os a tr ++ closeTfmEvents os a tr)
        = (if a.op_fd ≠ -1 then [a.op_fd] else []) ++ (if a.tfm_fd ≠ -1 then [a.tfm_fd] else []) := by
  refine ⟨by simp [Close_eq], by simp [Close_eq], ?_, ?_, ?_⟩
  · unfold closeOpEvents closeEvent; split <;> simp
  · unfold closeTfmEvents closeEvent; split <;> simp
  · unfold closeOpEvents closeTfmEvents closeEvent
    split <;> split <;> simp [closedFds]

/-! ## Lemmas on Write and Sum -/

theorem Write_nil (os : OS) (a : afalg) (tr : Trace) :
    afalg.Write os a [] tr = ((0, none), a, tr) := by
  simp [afalg.Write]

theorem Write_session (os : OS) (a : afalg) (data : List Byte) (tr : Trace) :
    (afalg.Write os a data tr).2.1 = a := by
  unfold afalg.Write sys
  split
  · rfl
  · dsimp only
    split <;> rfl

theorem Sum_session (os : OS) (a : afalg) (tr : Trace) :
    (afalg.Sum os a tr).2.1 = a := by
  unfold afalg.Sum syscall_Read sys
  dsimp only
  split
  · rfl
  · split <;> rfl

theorem writeAll_append (os : OS) (xs ys : List (List Byte)) (a : afalg) (tr : Trace) :
    writeAll os a (xs ++ ys) tr
      = writeAll os (writeAll os a xs tr).1 ys (writeAll os a xs tr).2 := by
  induction xs generalizing a tr with
  | nil => simp [writeAll]
  | cons d ds ih => simp [writeAll, ih]

/-- C3: for a non-empty slice, Write appends exactly one event to the trace, a
sendto on uintptr(op_fd) whose buffer is the whole of data, with length len(data),
flags MSG_MORE and a null address of length 0; the session is unchanged. When the
call reports errno 0, Write returns (len(data), nil); when it reports a non-zero
errno e, Write returns (0, e), the bare errno, and no further call is made. -/
theorem C3_Write_nonempty (os : OS) (a : afalg) (data : List Byte) (tr : Trace)
    (h : data ≠ []) :
    (afalg.Write os a data tr).2.2
        = tr ++ [(Call.sendto (uintptrOfInt a.op_fd) data data.length MSG_MORE 0 0,
                  os tr (Call.sendto (uintptrOfInt a.op_fd) data data.length MSG_MORE 0 0))]
    ∧ (afalg.Write os a data tr).2.1 = a
    ∧ ((os tr (Call.sendto (uintptrOfInt a.op_fd) data data.length MSG_MORE 0 0)).err = 0 →
        (afalg.Write os a data tr).1 = ((data.length : Int), none))
    ∧ (∀ e, e ≠ 0 →
        os tr (Call.sendto (uintptrOfInt a.op_fd) data data.length MSG_MORE 0 0) = Resp.fail e →
        (afalg.Write os a data tr).1 = (0, some (GoError.errno e))) := by
  have hl : data.length ≠ 0 := by
    intro h0
    exact h (List.length_eq_zero.mp h0)
  refine ⟨?_, Write_session os a data tr, ?_, ?_⟩
  · unfold afalg.Write sys
    rw [if_neg hl]
    dsimp only
    split <;> rfl
  · intro he
    unfold afalg.Write sys
    rw [if_neg hl]
    dsimp only
    rw [if_neg (by simpa using he)]
  · intro e he hr
    unfold afalg.Write sys
    rw [if_neg hl]
    dsimp only
    rw [hr]
    simp [Resp.err, he]

/-- C4: Write of the empty slice returns (0, nil), leaves the session and the trace
as they were (no system call), and therefore a run of Writes with an empty chunk
inserted at any position ends in the same session and the same trace, hence the
same bytes sent, as the run without it. -/
theorem C4_Write_empty (os : OS) (a : afalg) (tr : Trace) :
    afalg.Write os a [] tr = ((0, none), a, tr)
    ∧ ∀ (xs ys : List (List Byte)),
        writeAll os a (xs ++ [] :: ys) tr = writeAll os a (xs ++ ys) tr
        ∧ sentBytes (writeAll os a (xs ++ [] :: ys) tr).2
            = sentBytes (writeAll os a (xs ++ ys) tr).2 := by
  refine ⟨Write_nil os a tr, ?_⟩
  intro xs ys
  have key : writeAll os a (xs ++ [] :: ys) tr = writeAll os a (xs ++ ys) tr := by
    rw [writeAll_append, writeAll_append]
    simp [writeAll, Write_nil]
  exact ⟨key, by rw [key]⟩

/-- Witness of C3: a three-byte Write on descriptor 4 whose sendto succeeds
returns (3, nil) and leaves exactly that one sendto in the trace. -/
theorem C3_Write_nonempty_witness :
    ([1, 2, 3] : List Byte) ≠ []
    ∧ (afalg.Write (scripted [.ok 3 []]) ⟨3, 4, true⟩ [1, 2, 3] []).2.2
        = [(Call.sendto 4 [1, 2, 3] 3 0x8000 0 0, Resp.ok 3 [])]
    ∧ (afalg.Write (scripted [.ok 3 []]) ⟨3, 4, true⟩ [1, 2, 3] []).1 = (3, none) :=
  ⟨by decide,
   (C3_Write_nonempty (scripted [.ok 3 []]) ⟨3, 4, true⟩ [1, 2, 3] [] (by decide)).1,
   (C3_Write_nonempty (scripted [.ok 3 []]) ⟨3, 4, true⟩ [1, 2, 3] [] (by decide)).2.2.1 rfl⟩

/-! ## Lemmas on newAfalg -/

theorem r1_of_err_ne_zero (r : Resp) (h : r.err ≠ 0) : intOfUintptr r.r1 = -1 := by
  cases r with
  | ok v b => simp [Resp.err] at h
  | fail e => simp [Resp.r1, intOfUintptr]

theorem sockFd_of_sockFailed (os : OS) (tr : Trace) (h : sockFailed os tr) :
    sockFd os tr = -1 := by
  rcases h with h | h
  · unfold sockErr at h
    by_cases he : (os tr sockCall).err ≠ 0
    · exact r1_of_err_ne_zero _ he
    · rw [if_neg he] at h
      exact absurd rfl h
  · exact h

theorem acceptFd_of_acceptFailed (os : OS) (tr : Trace) (h : acceptFailed os tr) :
    acceptFd os tr = -1 := by
  rcases h with h | h
  · exact r1_of_err_ne_zero _ h
  · exact h

theorem newAfalg_eq (os : OS) (tr : Trace) :
    newAfalg os tr =
      if sockFailed os tr then
        ((none, some (.errorf "failed creating af_alg socket: %v" [.error (sockErr os tr)])),
          tr ++ [sockEv os tr])
      else if bindRet os tr ≠ 0 then
        ((none, some (.errorf "failed binding af_alg connection" [])),
          tr ++ [sockEv os tr, bindEv os tr,
                 closeEvent os (tr ++ [sockEv os tr, bindEv os tr]) (sockFd os tr)])
      else if acceptFailed os tr then
        ((none, some (.errorf "failed accepting af_alg connection: %v"
            [.errno (acceptResp os tr).err])),
          tr ++ [sockEv os tr, bindEv os tr, acceptEv os tr,
                 closeEvent os (tr ++ [sockEv os tr, bindEv os tr, acceptEv os tr]) (sockFd os tr)])
      else
        ((some ⟨sockFd os tr, acceptFd os tr, true⟩, none),
          tr ++ [sockEv os tr, bindEv os tr, acceptEv os tr]) := by
  by_cases hs : sockFailed os tr
  · have hfd := sockFd_of_sockFailed os tr hs
    rw [if_pos hs]
    have hs2 := hs
    unfold sockFailed sockErr sockFd at hs2
    unfold sockFd at hfd
    simp only [newAfalg, syscall_Socket, sys, sockCall, sockErr, sockEv] at hs2 hfd ⊢
    rw [if_pos hs2]
    simp [Close_eq, closeOpEvents, closeTfmEvents, hfd]
  · rw [if_neg hs]
    have hs2 := hs
    unfold sockFailed sockErr sockFd at hs2
    have hfd : sockFd os tr ≠ -1 := fun h => hs (Or.inr h)
    by_cases hb : bindRet os tr ≠ 0
    · rw [if_pos hb]
      have hb2 := hb
      unfold bindRet at hb2
      simp only [newAfalg, syscall_Socket, sys, sockCall, sockErr, sockEv, sockFd, bindRet,
        C_bind, bindEv, bindCall] at hs2 hfd hb2 ⊢
      rw [if_neg hs2]
      rw [if_pos hb2]
      simp [Close_eq, closeOpEvents, closeTfmEvents, hfd, closeEvent]
    · rw [if_neg hb]
      have hb2 := hb
      unfold bindRet at hb2
      by_cases ha : acceptFailed os tr
      · rw [if_pos ha]
        have hop := acceptFd_of_acceptFailed os tr ha
        have ha2 := ha
        unfold acceptFailed acceptFd acceptResp acceptCall at ha2
        unfold acceptFd acceptResp acceptCall at hop
        simp only [newAfalg, syscall_Socket, sys, sockCall, sockErr, sockEv, sockFd, bindRet,
          C_bind, bindEv, bindCall, acceptEv, acceptResp, acceptCall, acceptFd]
          at hs2 hfd hb2 ha2 hop ⊢
        rw [if_neg hs2]
        rw [if_neg hb2]
        simp only [List.append_assoc, List.singleton_append] at ha2 hop ⊢
        rw [if_pos ha2]
        simp [Close_eq, closeOpEvents, closeTfmEvents, hfd, hop, closeEvent]
      · rw [if_neg ha]
        have ha2 := ha
        unfold acceptFailed acceptFd acceptResp acceptCall at ha2
        simp only [newAfalg, syscall_Socket, sys, sockCall, sockErr, sockEv, sockFd, bindRet,
          C_bind, bindEv, bindCall, acceptEv, acceptResp, acceptCall, acceptFd]
          at hs2 hfd hb2 ha2 ⊢
        rw [if_neg hs2]
        rw [if_neg hb2]
        simp only [List.append_assoc, List.singleton_append] at ha2 ⊢
        rw [if_neg ha2]
        simp

theorem intOfUintptr_small (r : Nat) (h : r < 2 ^ 31) :
    intOfUintptr (Resp.ok r []).r1 = (r : Int) ∧ ∀ b, intOfUintptr (Resp.ok r b).r1 = (r : Int) := by
  have h64 : r % 2 ^ 64 = r := Nat.mod_eq_of_lt (by omega)
  have h63 : r < 2 ^ 63 := by omega
  constructor
  · simp only [Resp.r1, intOfUintptr, Nat.mod_mod]
    rw [h64, if_pos h63]
  · intro b
    simp only [Resp.r1, intOfUintptr, Nat.mod_mod]
    rw [h64, if_pos h63]

theorem step_closed (os : OS) (a : afalg) (tr : Trace) (op : Op)
    (ht : a.tfm_fd = -1) (ho : a.op_fd = -1) :
    (step os a tr op).1.tfm_fd = -1 ∧ (step os a tr op).1.op_fd = -1 := by
  cases op with
  | write d => simp [step, Write_session, ht, ho]
  | sum => simp [step, Sum_session, ht, ho]
  | close => simp [step, Close_eq]

theorem run_closed (os : OS) (ops : List Op) (a : afalg) (tr : Trace)
    (ht : a.tfm_fd = -1) (ho : a.op_fd = -1) :
    (run os a tr ops).1.tfm_fd = -1 ∧ (run os a tr ops).1.op_fd = -1 := by
  induction ops generalizing a tr with
  | nil => exact ⟨ht, ho⟩
  | cons op ops ih =>
    have hstep := step_closed os a tr op ht ho
    simpa [run] using ih (step os a tr op).1 (step os a tr op).2 hstep.1 hstep.2

theorem newAfalg_some (os : OS) (tr : Trace) (a : afalg)
    (h : (newAfalg os tr).1.1 = some a) :
    ¬ sockFailed os tr ∧ bindRet os tr = 0 ∧ ¬ acceptFailed os tr
    ∧ a = ⟨sockFd os tr, acceptFd os tr, true⟩ := by
  rw [newAfalg_eq] at h
  by_cases hs : sockFailed os tr
  · rw [if_pos hs] at h; simp at h
  · rw [if_neg hs] at h
    by_cases hb : bindRet os tr ≠ 0
    · rw [if_pos hb] at h; simp at h
    · rw [if_neg hb] at h
      by_cases ha : acceptFailed os tr
      · rw [if_pos ha] at h; simp at h
      · rw [if_neg ha] at h
        simp at h
        exact ⟨hs, not_not.mp hb, ha, h.symm⟩

theorem newAfalg_err_iff (os : OS) (tr : Trace) :
    (sockFailed os tr ∨ bindRet os tr ≠ 0 ∨ acceptFailed os tr)
      ↔ (newAfalg os tr).1.2 ≠ none := by
  rw [newAfalg_eq]
  by_cases hs : sockFailed os tr
  · simp [hs]
  · by_cases hb : bindRet os tr ≠ 0
    · simp [hs, hb]
    · by_cases ha : acceptFailed os tr
      · rw [if_neg hs, if_neg hb, if_pos ha]; simp [ha]
      · rw [if_neg hs, if_neg hb, if_neg ha]; simp [hs, ha]; exact not_not.mp hb

theorem sockFd_nonneg (os : OS) (tr : Trace) (hc : FdContract os) (hs : ¬ sockFailed os tr) :
    0 ≤ sockFd os tr := by
  unfold sockFd
  cases hr : os tr sockCall with
  | ok r b =>
    have hlt := hc tr sockCall r b rfl hr
    rw [(intOfUintptr_small r hlt).2 b]
    exact Int.ofNat_nonneg r
  | fail e =>
    exfalso
    apply hs
    right
    unfold sockFd
    rw [hr]
    simp [Resp.r1, intOfUintptr]

theorem acceptFd_nonneg (os : OS) (tr : Trace) (hc : FdContract os)
    (hs : ¬ acceptFailed os tr) : 0 ≤ acceptFd os tr := by
  unfold acceptFd
  cases hr : acceptResp os tr with
  | ok r b =>
    have hlt := hc _ (acceptCall os tr) r b rfl hr
    rw [(intOfUintptr_small r hlt).2 b]
    exact Int.ofNat_nonneg r
  | fail e =>
    exfalso
    apply hs
    right
    unfold acceptFd
    rw [hr]
    simp [Resp.r1, intOfUintptr]

theorem acquired_sockEv (os : OS) (tr : Trace) (rest : Trace) :
    acquired (sockEv os tr :: rest)
      = if sockFailed os tr then acquired rest else sockFd os tr :: acquired rest := by
  by_cases hs : sockFailed os tr
  · have hfd := sockFd_of_sockFailed os tr hs
    unfold sockFd sockCall at hfd
    rw [if_pos hs]
    simp [sockEv, sockCall, acquired, hfd]
  · rw [if_neg hs]
    have hfd : sockFd os tr ≠ -1 := fun h => hs (Or.inr h)
    have he : (os tr sockCall).err = 0 := by
      by_contra hne
      exact hs (Or.inl (by simp [sockErr, hne]))
    unfold sockFd at hfd
    unfold sockCall at he hfd
    simp [sockEv, sockCall, acquired, hfd, he, sockFd]

theorem acquired_acceptEv (os : OS) (tr : Trace) (rest : Trace) :
    acquired (acceptEv os tr :: rest)
      = if acceptFailed os tr then acquired rest else acceptFd os tr :: acquired rest := by
  by_cases hs : acceptFailed os tr
  · have hfd := acceptFd_of_acceptFailed os tr hs
    unfold acceptFd at hfd
    rw [if_pos hs]
    simp [acceptEv, acceptCall, acquired, hfd]
  · rw [if_neg hs]
    have hfd : acceptFd os tr ≠ -1 := fun h => hs (Or.inr h)
    have he : (acceptResp os tr).err = 0 := by
      by_contra hne
      exact hs (Or.inl hne)
    unfold acceptFd at hfd
    simp [acceptEv, acceptCall, acquired, hfd, he, acceptFd]

/-- C2: newAfalg returns an error exactly when one of its three steps fails
(socket, bind, accept); it then returns a nil session, and the descriptors passed
to OS close between entry and return are, as a list, exactly the descriptors
obtained in that interval (results of socket or accept without error and different
from -1): each obtained descriptor is closed once, and nothing else, in particular
not -1, is closed. -/
theorem C2_newAfalg_failure_cleanup (os : OS) (tr : Trace) :
    ((sockFailed os tr ∨ bindRet os tr ≠ 0 ∨ acceptFailed os tr)
        ↔ (newAfalg os tr).1.2 ≠ none)
    ∧ ((newAfalg os tr).1.2 ≠ none → (newAfalg os tr).1.1 = none)
    ∧ ∃ new : Trace, (newAfalg os tr).2 = tr ++ new
        ∧ ((newAfalg os tr).1.2 ≠ none →
            closedFds new = acquired new ∧ (-1 : Int) ∉ closedFds new) := by
  refine ⟨newAfalg_err_iff os tr, ?_, ?_⟩
  · intro herr
    cases hsome : (newAfalg os tr).1.1 with
    | none => rfl
    | some a =>
      exfalso
      obtain ⟨h1, h2, h3, _⟩ := newAfalg_some os tr a hsome
      have := (newAfalg_err_iff os tr).mpr herr
      rcases this with h | h | h
      · exact h1 h
      · exact h h2
      · exact h3 h
  · rw [newAfalg_eq]
    by_cases hs : sockFailed os tr
    · rw [if_pos hs]
      refine ⟨[sockEv os tr], rfl, fun _ => ?_⟩
      rw [acquired_sockEv, if_pos hs]
      simp [closedFds, sockEv, sockCall, acquired]
    · rw [if_neg hs]
      have hfd : sockFd os tr ≠ -1 := fun h => hs (Or.inr h)
      by_cases hb : bindRet os tr ≠ 0
      · rw [if_pos hb]
        refine ⟨_, rfl, fun _ => ?_⟩
        rw [acquired_sockEv, if_neg hs]
        simp [closedFds, sockEv, sockCall, bindEv, bindCall, closeEvent, acquired]
        exact fun h => hfd h.symm
      · rw [if_neg hb]
        by_cases ha : acceptFailed os tr
        · rw [if_pos ha]
          refine ⟨_, rfl, fun _ => ?_⟩
          rw [acquired_sockEv, if_neg hs]
          have hacc : acquired (bindEv os tr :: acceptEv os tr ::
              [closeEvent os (tr ++ [sockEv os tr, bindEv os tr, acceptEv os tr]) (sockFd os tr)])
              = [] := by
            have := acquired_acceptEv os tr
              [closeEvent os (tr ++ [sockEv os tr, bindEv os tr, acceptEv os tr]) (sockFd os tr)]
            rw [if_pos ha] at this
            show acquired (acceptEv os tr ::
              [closeEvent os (tr ++ [sockEv os tr, bindEv os tr, acceptEv os tr]) (sockFd os tr)])
              = []
            rw [this]
            rfl
          rw [hacc]
          simp [closedFds, sockEv, sockCall, bindEv, bindCall, closeEvent, acceptEv, acceptCall]
          exact fun h => hfd h.symm
        · rw [if_neg ha]
          exact ⟨_, rfl, fun h => absurd rfl h⟩

/-- Witness of C2: socket returns 3, bind succeeds, accept fails with EMFILE (24).
newAfalg returns nil and an error, and the only close issued is that of
descriptor 3. -/
theorem C2_newAfalg_failure_cleanup_witness :
    (newAfalg (scripted [.ok 3 [], .ok 0 [], .fail 24, .ok 0 []]) []).1.1 = none
    ∧ closedFds (newAfalg (scripted [.ok 3 [], .ok 0 [], .fail 24, .ok 0 []]) []).2 = [3] :=
  ⟨(C2_newAfalg_failure_cleanup (scripted [.ok 3 [], .ok 0 [], .fail 24, .ok 0 []]) []).2.1
      (by decide),
   by decide⟩

theorem zeroDigest_length : zeroDigest.length = 20 := by
  simp [zeroDigest, Size]

theorem Sum_trace (os : OS) (a : afalg) (tr : Trace) :
    (afalg.Sum os a tr).2.2
      = tr ++ [(Call.read a.op_fd 20, os tr (Call.read a.op_fd 20))] := by
  unfold afalg.Sum syscall_Read sys
  rw [zeroDigest_length]
  dsimp only
  split
  · rfl
  · split <;> rfl

theorem Sum_digest (os : OS) (a : afalg) (tr : Trace) :
    (afalg.Sum os a tr).1.1 = copyInto zeroDigest (os tr (Call.read a.op_fd 20)).stored := by
  unfold afalg.Sum syscall_Read sys
  rw [zeroDigest_length]
  dsimp only
  split
  · rfl
  · split <;> rfl

theorem Sum_err_none_iff (os : OS) (a : afalg) (tr : Trace) :
    (afalg.Sum os a tr).1.2 = none ↔
      (os tr (Call.read a.op_fd 20)).err = 0
        ∧ intOfUintptr (os tr (Call.read a.op_fd 20)).r1 = 20 := by
  unfold afalg.Sum syscall_Read sys
  rw [zeroDigest_length]
  by_cases he : (os tr (Call.read a.op_fd 20)).err = 0
  · by_cases hn : intOfUintptr (os tr (Call.read a.op_fd 20)).r1 = 20
    · simp [he, hn, Size]
    · simp [he, hn, Size]
  · simp [he]

theorem copyInto_full (dst src : List Byte) (h : src.length = dst.length) :
    copyInto dst src = src := by
  unfold copyInto
  rw [List.take_of_length_le (le_of_eq h), h, List.drop_length, List.append_nil]

/-- C5 (as amended): Sum appends exactly one event, a read on op_fd with a 20-byte
buffer, and leaves the session unchanged. Its error is nil exactly when the read
reports errno 0 and a count of 20. When the read reports errno 0 and a count other
than 20 the error is the message "invalid sha1 length"; when it reports a non-zero
errno the error is that errno. The digest returned is always the zeroed 20-byte
buffer overwritten by what the read stored, hence exactly the stored bytes when
there are 20 of them. -/
theorem C5_Sum_result (os : OS) (a : afalg) (tr : Trace) :
    (afalg.Sum os a tr).2.2 = tr ++ [(Call.read a.op_fd 20, os tr (Call.read a.op_fd 20))]
    ∧ (afalg.Sum os a tr).2.1 = a
    ∧ ((afalg.Sum os a tr).1.2 = none ↔
        (os tr (Call.read a.op_fd 20)).err = 0
          ∧ intOfUintptr (os tr (Call.read a.op_fd 20)).r1 = 20)
    ∧ ((os tr (Call.read a.op_fd 20)).err = 0 →
        intOfUintptr (os tr (Call.read a.op_fd 20)).r1 ≠ 20 →
        (afalg.Sum os a tr).1.2 = some (GoError.errorf "invalid sha1 length" []))
    ∧ ((os tr (Call.read a.op_fd 20)).err ≠ 0 →
        (afalg.Sum os a tr).1.2 = some (GoError.errno (os tr (Call.read a.op_fd 20)).err))
    ∧ (afalg.Sum os a tr).1.1 = copyInto zeroDigest (os tr (Call.read a.op_fd 20)).stored
    ∧ ((os tr (Call.read a.op_fd 20)).stored.length = 20 →
        (afalg.Sum os a tr).1.1 = (os tr (Call.read a.op_fd 20)).stored) := by
  refine ⟨Sum_trace os a tr, Sum_session os a tr, Sum_err_none_iff os a tr, ?_, ?_,
    Sum_digest os a tr, ?_⟩
  · intro he hn
    unfold afalg.Sum syscall_Read sys
    rw [zeroDigest_length]
    simp [he, hn, Size]
  · intro he
    unfold afalg.Sum syscall_Read sys
    rw [zeroDigest_length]
    simp [he]
  · intro h20
    rw [Sum_digest]
    exact copyInto_full _ _ (by rw [h20, zeroDigest_length])

/-- C5, counterexample: a read that reports no error and 5 bytes makes Sum fail
with the message "invalid sha1 length", which is not "invalid digest length". -/
theorem C5_Sum_message_counterexample :
    (scripted [.ok 5 [1, 2, 3, 4, 5]] [] (Call.read 4 20)).err = 0
    ∧ intOfUintptr (scripted [.ok 5 [1, 2, 3, 4, 5]] [] (Call.read 4 20)).r1 = 5
    ∧ (afalg.Sum (scripted [.ok 5 [1, 2, 3, 4, 5]]) ⟨3, 4, true⟩ []).1.2
        = some (GoError.errorf "invalid sha1 length" [])
    ∧ ¬ ∃ args, (afalg.Sum (scripted [.ok 5 [1, 2, 3, 4, 5]]) ⟨3, 4, true⟩ []).1.2
        = some (GoError.errorf "invalid digest length" args) := by
  have h : (afalg.Sum (scripted [.ok 5 [1, 2, 3, 4, 5]]) ⟨3, 4, true⟩ []).1.2
      = some (GoError.errorf "invalid sha1 length" []) := by decide
  refine ⟨by decide, by decide, h, ?_⟩
  rintro ⟨args, hargs⟩
  rw [h] at hargs
  simp at hargs

/-- Witness of C5: a read that reports 20 bytes and stores 20 bytes makes Sum
return exactly those bytes and a nil error. -/
theorem C5_Sum_result_witness :
    (afalg.Sum (scripted [.ok 20 (List.replicate 20 7)]) ⟨3, 4, true⟩ []).1.1
        = List.replicate 20 7
    ∧ (afalg.Sum (scripted [.ok 20 (List.replicate 20 7)]) ⟨3, 4, true⟩ []).1.2 = none :=
  ⟨(C5_Sum_result (scripted [.ok 20 (List.replicate 20 7)]) ⟨3, 4, true⟩ []).2.2.2.2.2.2
      (by decide),
   (C5_Sum_result (scripted [.ok 20 (List.replicate 20 7)]) ⟨3, 4, true⟩ []).2.2.1.mpr
      ⟨by decide, by decide⟩⟩

theorem newAfalg_session_of_no_error (os : OS) (tr : Trace) :
    (newAfalg os tr).1.2 = none → ∃ a, (newAfalg os tr).1.1 = some a := by
  intro h
  cases hsome : (newAfalg os tr).1.1 with
  | some a => exact ⟨a, rfl⟩
  | none =>
    exfalso
    have hne : ¬ (sockFailed os tr ∨ bindRet os tr ≠ 0 ∨ acceptFailed os tr) :=
      fun hd => (newAfalg_err_iff os tr).mp hd h
    rw [newAfalg_eq] at hsome
    by_cases hs : sockFailed os tr
    · exact hne (Or.inl hs)
    · by_cases hb : bindRet os tr ≠ 0
      · exact hne (Or.inr (Or.inl hb))
      · by_cases ha : acceptFailed os tr
        · exact hne (Or.inr (Or.inr ha))
        · rw [if_neg hs, if_neg hb, if_neg ha] at hsome
          simp at hsome

/-- C6: descriptor invariant. A session returned by newAfalg without error has both
descriptors different from -1, and non-negative when the kernel returns
non-negative descriptors from successful socket and accept calls; newAfalg
returning no error does return a session. Write and Sum return the session they
were given. After Close both descriptors are -1, and from a state with both equal
to -1 every sequence of Write, Sum and Close leaves both equal to -1. -/
theorem C6_descriptor_invariant (os : OS) :
    (∀ (tr : Trace) (a : afalg), (newAfalg os tr).1 = (some a, none) →
        a.tfm_fd ≠ -1 ∧ a.op_fd ≠ -1 ∧ (FdContract os → 0 ≤ a.tfm_fd ∧ 0 ≤ a.op_fd))
    ∧ (∀ (tr : Trace), (newAfalg os tr).1.2 = none → ∃ a, (newAfalg os tr).1.1 = some a)
    ∧ (∀ (a : afalg) (data : List Byte) (tr : Trace), (afalg.Write os a data tr).2.1 = a)
    ∧ (∀ (a : afalg) (tr : Trace), (afalg.Sum os a tr).2.1 = a)
    ∧ (∀ (a : afalg) (tr : Trace),
        (afalg.Close os a tr).1.tfm_fd = -1 ∧ (afalg.Close os a tr).1.op_fd = -1)
    ∧ (∀ (a : afalg) (tr : Trace) (ops : List Op),
        (run os (afalg.Close os a tr).1 (afalg.Close os a tr).2 ops).1.tfm_fd = -1
        ∧ (run os (afalg.Close os a tr).1 (afalg.Close os a tr).2 ops).1.op_fd = -1) := by
  refine ⟨?_, ?_, Write_session os, Sum_session os, ?_, ?_⟩
  · intro tr a h
    have h1 : (newAfalg os tr).1.1 = some a := by rw [h]
    obtain ⟨hs, _, ha, rfl⟩ := newAfalg_some os tr a h1
    refine ⟨fun h => hs (Or.inr h), fun h => ha (Or.inr h), fun hc => ?_⟩
    exact ⟨sockFd_nonneg os tr hc hs, acceptFd_nonneg os tr hc ha⟩
  · intro tr h
    exact newAfalg_session_of_no_error os tr h
  · intro a tr
    simp [Close_eq]
  · intro a tr ops
    exact run_closed os ops _ _ (by simp [Close_eq]) (by simp [Close_eq])

theorem scripted_mem (rs : List Resp) (tr : Trace) (c : Call) (r : Nat) (b : List Byte)
    (h : scripted rs tr c = .ok r b) : Resp.ok r b ∈ rs := by
  unfold scripted at h
  rw [List.getD_eq_getElem?_getD] at h
  cases hg : rs[tr.length]? with
  | none => rw [hg] at h; simp at h
  | some x =>
    rw [hg] at h
    simp at h
    subst h
    exact List.getElem?_mem hg

/-- Witness of C6: socket returns 3, bind succeeds, accept returns 4; the scripted
kernel only returns small non-negative descriptors, and the session holds 3 and 4. -/
theorem C6_descriptor_invariant_witness :
    (newAfalg (scripted [.ok 3 [], .ok 0 [], .ok 4 []]) []).1 = (some ⟨3, 4, true⟩, none)
    ∧ FdContract (scripted [.ok 3 [], .ok 0 [], .ok 4 []])
    ∧ (0 : Int) ≤ (afalg.mk 3 4 true).tfm_fd ∧ (0 : Int) ≤ (afalg.mk 3 4 true).op_fd := by
  have hc : FdContract (scripted [.ok 3 [], .ok 0 [], .ok 4 []]) := by
    intro tr c r b _ h
    have hm := scripted_mem _ tr c r b h
    simp at hm
    rcases hm with h | h | h <;> (rw [h.1]; norm_num)
  have hn : (newAfalg (scripted [.ok 3 [], .ok 0 [], .ok 4 []]) []).1
      = (some ⟨3, 4, true⟩, none) := by decide
  exact ⟨hn, hc,
    ((C6_descriptor_invariant (scripted [.ok 3 [], .ok 0 [], .ok 4 []])).1 [] ⟨3, 4, true⟩
      hn).2.2 hc⟩

/-- C7 (as amended): the shape of the error for each failing step. A failed bind
gives the fixed message "failed binding af_alg connection" with no operand; a
failed accept gives the message "failed accepting af_alg connection: %v" with the
errno as operand; a failed send makes Write return the bare errno; a failed read
makes Sum return the bare errno. -/
theorem C7_error_shapes (os : OS) (tr : Trace) :
    (¬ sockFailed os tr → bindRet os tr ≠ 0 →
        (newAfalg os tr).1.2 = some (GoError.errorf "failed binding af_alg connection" []))
    ∧ (∀ e, ¬ sockFailed os tr → bindRet os tr = 0 → acceptResp os tr = Resp.fail e →
        (newAfalg os tr).1.2
          = some (GoError.errorf "failed accepting af_alg connection: %v" [FmtArg.errno e]))
    ∧ (∀ (a : afalg) (data : List Byte) (e : Nat), data ≠ [] → e ≠ 0 →
        os tr (Call.sendto (uintptrOfInt a.op_fd) data data.length MSG_MORE 0 0) = Resp.fail e →
        (afalg.Write os a data tr).1.2 = some (GoError.errno e))
    ∧ (∀ (a : afalg) (e : Nat), e ≠ 0 → os tr (Call.read a.op_fd 20) = Resp.fail e →
        (afalg.Sum os a tr).1.2 = some (GoError.errno e)) := by
  refine ⟨?_, ?_, ?_, ?_⟩
  · intro hs hb
    rw [newAfalg_eq, if_neg hs, if_pos hb]
  · intro e hs hb hr
    have ha : acceptFailed os tr := by
      right
      unfold acceptFd
      rw [hr]
      simp [Resp.r1, intOfUintptr]
    rw [newAfalg_eq, if_neg hs, if_neg (not_not.mpr hb), if_pos ha, hr]
    rfl
  · intro a data e hd he hr
    have hl : data.length ≠ 0 := fun h0 => hd (List.length_eq_zero.mp h0)
    unfold afalg.Write sys
    rw [if_neg hl]
    dsimp only
    rw [hr]
    simp [Resp.err, he]
  · intro a e he hr
    have hlen : zeroDigest.length = 20 := by simp [zeroDigest, Size]
    unfold afalg.Sum syscall_Read sys
    rw [hlen]
    dsimp only
    rw [hr]
    simp [Resp.err, he]

/-- C7, counterexample: a send failing with EPIPE (32) makes Write return the bare
errno 32, which is not a message; a read failing with EBADF (9) makes Sum return
the bare errno 9; a bind failing with ENOENT (2) gives a message that does not
carry 2. -/
theorem C7_wrapping_counterexample :
    (afalg.Write (scripted [.fail 32]) ⟨3, 4, true⟩ [1] []).1.2 = some (GoError.errno 32)
    ∧ wrapsErrno (afalg.Write (scripted [.fail 32]) ⟨3, 4, true⟩ [1] []).1.2 32 = false
    ∧ (afalg.Sum (scripted [.fail 9]) ⟨3, 4, true⟩ []).1.2 = some (GoError.errno 9)
    ∧ wrapsErrno (afalg.Sum (scripted [.fail 9]) ⟨3, 4, true⟩ []).1.2 9 = false
    ∧ (newAfalg (scripted [.ok 3 [], .fail 2, .ok 0 []]) []).1.2
        = some (GoError.errorf "failed binding af_alg connection" [])
    ∧ wrapsErrno (newAfalg (scripted [.ok 3 [], .fail 2, .ok 0 []]) []).1.2 2 = false := by
  refine ⟨by decide, by decide, by decide, by decide, by decide, by decide⟩

/-- Witness of C7: socket returns 3, bind succeeds, accept fails with EMFILE (24);
the error is the accept message with operand 24. -/
theorem C7_error_shapes_witness :
    (newAfalg (scripted [.ok 3 [], .ok 0 [], .fail 24, .ok 0 []]) []).1.2
      = some (GoError.errorf "failed accepting af_alg connection: %v" [FmtArg.errno 24])
    ∧ wrapsErrno (newAfalg (scripted [.ok 3 [], .ok 0 [], .fail 24, .ok 0 []]) []).1.2 24 = true :=
  ⟨(C7_error_shapes (scripted [.ok 3 [], .ok 0 [], .fail 24, .ok 0 []]) []).2.1 24
      (by decide) (by decide) (by decide),
   by decide⟩

/-! ## The one-shot function -/

/-- C8: SHA1 through any hasher, with the interface calls recorded. If New returns
an error, SHA1 returns that error and the only call is New. If New succeeds and
Write returns an error, SHA1 returns that error and the calls are New, Write(data),
Close, without Sum. Otherwise SHA1 returns exactly the pair returned by Sum and the
calls are New, Write(data), Sum, Close. Close is thus called once, last, on the
session as Write or Sum left it, whenever New succeeded. With the Linux hasher and
with the portable one SHA1 always returns (it never calls a method on nil). -/
theorem C8_SHA1_calls {σ W : Type} (H : Hasher σ W) (data : List Byte) (w : W) :
    SHA1 (logged H) data (w, []) =
      (match H.New w with
       | ((_, some err), w1) => some ((zeroDigest, some err), (w1, [MethodCall.New]))
       | ((none, none), _) => none
       | ((some hash, none), w1) =>
         match H.Write hash data w1 with
         | ((_, some err), hash1, w2) =>
           some ((zeroDigest, some err),
             ((H.Close hash1 w2).2, [MethodCall.New, MethodCall.Write data, MethodCall.Close]))
         | ((_, none), hash1, w2) =>
           some ((H.Sum hash1 w2).1,
             ((H.Close (H.Sum hash1 w2).2.1 (H.Sum hash1 w2).2.2).2,
               [MethodCall.New, MethodCall.Write data, MethodCall.Sum, MethodCall.Close])))
    ∧ (∀ (os : OS) (tr : Trace), (SHA1 (logged (linuxHasher os)) data (tr, [])).isSome = true)
    ∧ (∀ (digest : List Byte → List Byte),
        (SHA1 (logged (defaultHasher digest)) data ((), [])).isSome = true) := by
  refine ⟨?_, ?_, ?_⟩
  · unfold SHA1 logged
    dsimp only
    rcases hN : H.New w with ⟨⟨h, e⟩, w1⟩
    cases e with
    | some err => simp
    | none =>
      cases h with
      | none => simp
      | some hash =>
        dsimp only
        rcases hW : H.Write hash data w1 with ⟨⟨n, e⟩, hash1, w2⟩
        cases e with
        | some err => simp
        | none => simp
  · intro os tr
    unfold SHA1 logged linuxHasher
    dsimp only
    rcases hN : newAfalg os tr with ⟨⟨h, e⟩, w1⟩
    cases e with
    | some err => simp
    | none =>
      cases h with
      | none =>
        exfalso
        have hnone : (newAfalg os tr).1.2 = none := by rw [hN]
        obtain ⟨a, ha⟩ := (newAfalg_session_of_no_error os tr) hnone
        rw [hN] at ha
        simp at ha
      | some hash =>
        dsimp only
        rcases hW : afalg.Write os hash data w1 with ⟨⟨n, e⟩, hash1, w2⟩
        cases e with
        | some err => simp
        | none => simp
  · intro digest
    simp [SHA1, logged, defaultHasher, hashWrapper.New, hashWrapper.Write]

/-! ## The two builds compared -/

theorem uintptrOfInt_intOfUintptr (u : Nat) : uintptrOfInt (intOfUintptr u) = u % 2 ^ 64 := by
  unfold uintptrOfInt intOfUintptr
  have hlt : u % 2 ^ 64 < 2 ^ 64 := Nat.mod_lt _ (by norm_num)
  generalize u % 2 ^ 64 = m at hlt
  split <;> omega

theorem SHA1_linux_ok (os : OS) (data : List Byte) (tr : Trace) (md : List Byte) (w : Trace)
    (h : SHA1 (linuxHasher os) data tr = some ((md, none), w)) :
    ¬ sockFailed os tr ∧ bindRet os tr = 0 ∧ ¬ acceptFailed os tr
    ∧ (afalg.Write os ⟨sockFd os tr, acceptFd os tr, true⟩ data
          (tr ++ [sockEv os tr, bindEv os tr, acceptEv os tr])).1.2 = none
    ∧ (afalg.Sum os ⟨sockFd os tr, acceptFd os tr, true⟩
          (afalg.Write os ⟨sockFd os tr, acceptFd os tr, true⟩ data
            (tr ++ [sockEv os tr, bindEv os tr, acceptEv os tr])).2.2).1 = (md, none) := by
  unfold SHA1 linuxHasher at h
  dsimp only at h
  rw [newAfalg_eq] at h
  by_cases hs : sockFailed os tr
  · rw [if_pos hs] at h; simp at h
  · rw [if_neg hs] at h
    by_cases hb : bindRet os tr ≠ 0
    · rw [if_pos hb] at h; simp at h
    · rw [if_neg hb] at h
      by_cases ha : acceptFailed os tr
      · rw [if_pos ha] at h; simp at h
      · rw [if_neg ha] at h
        dsimp only at h
        have hsess := Write_session os ⟨sockFd os tr, acceptFd os tr, true⟩ data
          (tr ++ [sockEv os tr, bindEv os tr, acceptEv os tr])
        rcases hW : afalg.Write os ⟨sockFd os tr, acceptFd os tr, true⟩ data
          (tr ++ [sockEv os tr, bindEv os tr, acceptEv os tr]) with ⟨⟨n, e⟩, hash1, w2⟩
        rw [hW] at h hsess
        dsimp only at hsess
        subst hsess
        cases e with
        | some err => simp at h
        | none =>
          simp only [Option.some.injEq, Prod.mk.injEq] at h
          refine ⟨hs, not_not.mp hb, ha, rfl, ?_⟩
          exact h.1

theorem small_fd_conv (r : Nat) (h : r < 2 ^ 31) :
    toCInt (r : Int) = r ∧ uintptrOfInt (r : Int) = r ∧ kfd r = r := by
  have h1 : toCInt (r : Int) = r := by
    unfold toCInt
    omega
  have h2 : uintptrOfInt (r : Int) = r := by
    unfold uintptrOfInt
    omega
  refine ⟨h1, h2, ?_⟩
  unfold kfd intOfUintptr
  have h64 : r % 2 ^ 64 = r := Nat.mod_eq_of_lt (by omega)
  rw [h64, if_pos (by omega)]
  exact h1

theorem sockResp_ok (os : OS) (tr : Trace) (hc : FdContract os) (hs : ¬ sockFailed os tr) :
    ∃ r b, os tr sockCall = .ok r b ∧ r < 2 ^ 31 ∧ sockFd os tr = (r : Int) := by
  cases hr : os tr sockCall with
  | ok r b =>
    have hlt := hc tr sockCall r b rfl hr
    refine ⟨r, b, rfl, hlt, ?_⟩
    unfold sockFd
    rw [hr]
    exact (intOfUintptr_small r hlt).2 b
  | fail e =>
    exfalso
    apply hs
    right
    unfold sockFd
    rw [hr]
    simp [Resp.r1, intOfUintptr]

theorem acceptResp_ok (os : OS) (tr : Trace) (hc : FdContract os) (ha : ¬ acceptFailed os tr) :
    ∃ r b, acceptResp os tr = .ok r b ∧ r < 2 ^ 31 ∧ acceptFd os tr = (r : Int) := by
  cases hr : acceptResp os tr with
  | ok r b =>
    have hlt := hc _ (acceptCall os tr) r b rfl hr
    refine ⟨r, b, rfl, hlt, ?_⟩
    unfold acceptFd
    rw [hr]
    exact (intOfUintptr_small r hlt).2 b
  | fail e =>
    exfalso
    apply ha
    right
    unfold acceptFd
    rw [hr]
    simp [Resp.r1, intOfUintptr]

theorem bindResp_ok (os : OS) (tr : Trace) (hb : bindRet os tr = 0) :
    ∃ v b, (bindEv os tr).2 = .ok v b ∧ toCInt (intOfUintptr v) = 0 := by
  unfold bindRet C_bind sys at hb
  unfold bindEv bindCall
  dsimp only at hb ⊢
  cases hr : os (tr ++ [sockEv os tr]) (Call.bind (toCInt (sockFd os tr)) sha1_sa sizeof_sha1_sa) with
  | ok v b =>
    rw [hr] at hb
    exact ⟨v, b, rfl, hb⟩
  | fail e =>
    rw [hr] at hb
    simp at hb

theorem kernelState_snoc (tr : Trace) (ev : Event) :
    kernelState (tr ++ [ev]) = kernelStep (kernelState tr) ev := by
  simp [kernelState, List.foldl_append]

/-- After a successful `newAfalg` on a kernel that returns non-negative
descriptors, the new operation socket is one of the hash "sha1" with empty input. -/
theorem kernelState_after_new (os : OS) (tr : Trace) (hc : FdContract os)
    (hs : ¬ sockFailed os tr) (hb : bindRet os tr = 0) (ha : ¬ acceptFailed os tr) :
    kernelState (tr ++ [sockEv os tr, bindEv os tr, acceptEv os tr]) (acceptFd os tr)
      = .hashOp "sha1" []
    ∧ toCInt (acceptFd os tr) = acceptFd os tr
    ∧ kfd (uintptrOfInt (acceptFd os tr)) = acceptFd os tr := by
  obtain ⟨r1, b1, hr1, hlt1, hfd1⟩ := sockResp_ok os tr hc hs
  obtain ⟨v, bv, hv, hv0⟩ := bindResp_ok os tr hb
  obtain ⟨r2, b2, hr2, hlt2, hfd2⟩ := acceptResp_ok os tr hc ha
  obtain ⟨c1, u1, k1⟩ := small_fd_conv r1 hlt1
  obtain ⟨c2, u2, k2⟩ := small_fd_conv r2 hlt2
  have h3 : tr ++ [sockEv os tr, bindEv os tr, acceptEv os tr]
      = ((tr ++ [sockEv os tr]) ++ [bindEv os tr]) ++ [acceptEv os tr] := by simp
  have e1 : sockEv os tr = (Call.socket 38 5 0, Resp.ok r1 b1) := by
    unfold sockEv
    rw [hr1]
    rfl
  have e2 : bindEv os tr = (Call.bind (r1 : Int) sha1_sa 88, Resp.ok v bv) := by
    have hcall : (bindEv os tr).1 = Call.bind (r1 : Int) sha1_sa 88 := by
      unfold bindEv bindCall
      dsimp only
      rw [hfd1, c1]
      rfl
    exact Prod.ext hcall hv
  have e3 : acceptEv os tr = (Call.accept r1 0 0, Resp.ok r2 b2) := by
    unfold acceptEv acceptCall
    rw [hr2, hfd1, u1]
  refine ⟨?_, ?_, ?_⟩
  · rw [h3, kernelState_snoc, kernelState_snoc, kernelState_snoc, e1, e2, e3, hfd2]
    simp [kernelStep, setFd, hv0, k1, sha1_sa, AF_ALG]
  · rw [hfd2, c2]
  · rw [hfd2, u2, k2]

/-- A `Write` whose send the kernel took in full extends the input of the hash by
`data`; a `Write` of nothing leaves it as it was. -/
theorem kernelState_after_Write (os : OS) (a : afalg) (data : List Byte) (tr : Trace)
    (name : String) (input : List Byte)
    (hk : kfd (uintptrOfInt a.op_fd) = a.op_fd)
    (hin : kernelState tr a.op_fd = .hashOp name input)
    (hfull : data ≠ [] → ∃ b,
      os tr (Call.sendto (uintptrOfInt a.op_fd) data data.length MSG_MORE 0 0)
        = Resp.ok data.length b) :
    kernelState (afalg.Write os a data tr).2.2 a.op_fd = .hashOp name (input ++ data) := by
  by_cases hl : data.length = 0
  · have hd : data = [] := List.length_eq_zero.mp hl
    subst hd
    rw [Write_nil]
    simpa using hin
  · have hne : data ≠ [] := fun h0 => hl (by rw [h0]; rfl)
    obtain ⟨b, hb⟩ := hfull hne
    unfold afalg.Write sys
    rw [if_neg hl]
    dsimp only
    rw [hb]
    simp only [Resp.err, ne_eq, not_true_eq_false, if_false]
    rw [kernelState_snoc]
    simp [kernelStep, setFd, hk, hin, MSG_MORE]

/-- C9 (as amended): let digest be the checksum function of crypto/sha1 and let the
kernel honour the AF_ALG contract for it. Then for every byte sequence, whenever
SHA1 on the Linux build returns a digest without error and the kernel took the
whole buffer of the send (it returned the count len(data), which Write does not
look at; nothing is required for empty data, where no send is made), SHA1 on the
portable build returns the same digest without error. -/
theorem C9_backends_agree (digest : List Byte → List Byte) (os : OS)
    (hk : KernelContract os digest) (data : List Byte) (tr : Trace)
    (md : List Byte) (w : Trace)
    (h : SHA1 (linuxHasher os) data tr = some ((md, none), w))
    (hfull : data ≠ [] → ∃ b, sendResp os tr data = Resp.ok data.length b) :
    SHA1 (defaultHasher digest) data () = some ((md, none), ()) := by
  obtain ⟨hs, hb, ha, _, hsum⟩ := SHA1_linux_ok os data tr md w h
  obtain ⟨hin0, hc2, hk2⟩ := kernelState_after_new os tr hk.1 hs hb ha
  have hin := kernelState_after_Write os ⟨sockFd os tr, acceptFd os tr, true⟩ data
    (tr ++ [sockEv os tr, bindEv os tr, acceptEv os tr]) "sha1" [] hk2 hin0 hfull
  simp only [List.nil_append] at hin
  have hiff := Sum_err_none_iff os ⟨sockFd os tr, acceptFd os tr, true⟩
    (afalg.Write os ⟨sockFd os tr, acceptFd os tr, true⟩ data
      (tr ++ [sockEv os tr, bindEv os tr, acceptEv os tr])).2.2
  have hmd := Sum_digest os ⟨sockFd os tr, acceptFd os tr, true⟩
    (afalg.Write os ⟨sockFd os tr, acceptFd os tr, true⟩ data
      (tr ++ [sockEv os tr, bindEv os tr, acceptEv os tr])).2.2
  have herr : (afalg.Sum os ⟨sockFd os tr, acceptFd os tr, true⟩
      (afalg.Write os ⟨sockFd os tr, acceptFd os tr, true⟩ data
        (tr ++ [sockEv os tr, bindEv os tr, acceptEv os tr])).2.2).1.2 = none := by
    rw [hsum]
  have hmd2 : (afalg.Sum os ⟨sockFd os tr, acceptFd os tr, true⟩
      (afalg.Write os ⟨sockFd os tr, acceptFd os tr, true⟩ data
        (tr ++ [sockEv os tr, bindEv os tr, acceptEv os tr])).2.2).1.1 = md := by
    rw [hsum]
  obtain ⟨he, hn⟩ := hiff.mp herr
  dsimp only at he hn hmd hin
  cases hr : os (afalg.Write os ⟨sockFd os tr, acceptFd os tr, true⟩ data
      (tr ++ [sockEv os tr, bindEv os tr, acceptEv os tr])).2.2
      (Call.read (acceptFd os tr) 20) with
  | fail e =>
    rw [hr] at hn
    simp [Resp.r1, intOfUintptr] at hn
  | ok r b =>
    have hin2 : kernelState (afalg.Write os ⟨sockFd os tr, acceptFd os tr, true⟩ data
        (tr ++ [sockEv os tr, bindEv os tr, acceptEv os tr])).2.2 (toCInt (acceptFd os tr))
        = .hashOp "sha1" data := by
      rw [hc2]
      exact hin
    have hbd := hk.2 _ (acceptFd os tr) data r b hin2 hr
    rw [hr] at hmd
    simp only [Resp.stored] at hmd
    rw [hmd2, hbd] at hmd
    simp [SHA1, defaultHasher, hashWrapper.New, hashWrapper.Write, hashWrapper.Sum, hmd]

theorem simKernel_contract (digest : List Byte → List Byte) (taken : Nat → Nat) :
    KernelContract (simKernel digest taken) digest := by
  constructor
  · intro tr c r b hfd hr
    cases c <;> simp [returnsFd, simKernel] at hfd hr <;> (rw [← hr.1]; norm_num)
  · intro tr fd input r b hin hr
    simp only [simKernel, hin] at hr
    simp at hr
    exact hr.2.symm

set_option maxRecDepth 100000 in
/-- The test vectors of the specification: the checksums of the empty input and of
"abc". -/
theorem crypto_sha1_Sum_vectors :
    crypto_sha1_Sum [] =
      [0xda, 0x39, 0xa3, 0xee, 0x5e, 0x6b, 0x4b, 0x0d, 0x32, 0x55,
       0xbf, 0xef, 0x95, 0x60, 0x18, 0x90, 0xaf, 0xd8, 0x07, 0x09]
    ∧ crypto_sha1_Sum [0x61, 0x62, 0x63] =
      [0xa9, 0x99, 0x3e, 0x36, 0x47, 0x06, 0x81, 0x6a, 0xba, 0x3e,
       0x25, 0x71, 0x78, 0x50, 0xc2, 0x6c, 0x9c, 0xd0, 0xd8, 0x9d] := by
  constructor <;> decide

set_option maxRecDepth 100000 in
/-- C9, counterexample: a kernel that honours the AF_ALG contract for SHA-1 but
takes only one byte of a send. On the three bytes "abc" the Linux build performs
socket, bind, accept, one sendto answered with count 1, one read and two closes,
and returns the checksum of "a" (86f7e437...) with a nil error; the portable build
returns the checksum of "abc" (a9993e36...). -/
theorem C9_short_send_counterexample :
    KernelContract (simKernel crypto_sha1_Sum (fun _ => 1)) crypto_sha1_Sum
    ∧ SHA1 (linuxHasher (simKernel crypto_sha1_Sum (fun _ => 1))) [0x61, 0x62, 0x63] []
        = some (([0x86, 0xf7, 0xe4, 0x37, 0xfa, 0xa5, 0xa7, 0xfc, 0xe1, 0x5d,
                  0x1d, 0xdc, 0xb9, 0xea, 0xea, 0xea, 0x37, 0x76, 0x67, 0xb8], none),
            [(Call.socket 38 5 0, Resp.ok 3 []),
             (Call.bind 3 sha1_sa 88, Resp.ok 0 []),
             (Call.accept 3 0 0, Resp.ok 4 []),
             (Call.sendto 4 [0x61, 0x62, 0x63] 3 0x8000 0 0, Resp.ok 1 []),
             (Call.read 4 20, Resp.ok 20
               [0x86, 0xf7, 0xe4, 0x37, 0xfa, 0xa5, 0xa7, 0xfc, 0xe1, 0x5d,
                0x1d, 0xdc, 0xb9, 0xea, 0xea, 0xea, 0x37, 0x76, 0x67, 0xb8]),
             (Call.close 4, Resp.ok 0 []),
             (Call.close 3, Resp.ok 0 [])])
    ∧ SHA1 (defaultHasher crypto_sha1_Sum) [0x61, 0x62, 0x63] ()
        = some (([0xa9, 0x99, 0x3e, 0x36, 0x47, 0x06, 0x81, 0x6a, 0xba, 0x3e,
                  0x25, 0x71, 0x78, 0x50, 0xc2, 0x6c, 0x9c, 0xd0, 0xd8, 0x9d], none), ())
    ∧ ¬ ∃ md w,
        SHA1 (linuxHasher (simKernel crypto_sha1_Sum (fun _ => 1))) [0x61, 0x62, 0x63] []
          = some ((md, none), w)
        ∧ SHA1 (defaultHasher crypto_sha1_Sum) [0x61, 0x62, 0x63] () = some ((md, none), ()) := by
  have hlin : SHA1 (linuxHasher (simKernel crypto_sha1_Sum (fun _ => 1))) [0x61, 0x62, 0x63] []
        = some (([0x86, 0xf7, 0xe4, 0x37, 0xfa, 0xa5, 0xa7, 0xfc, 0xe1, 0x5d,
                  0x1d, 0xdc, 0xb9, 0xea, 0xea, 0xea, 0x37, 0x76, 0x67, 0xb8], none),
            [(Call.socket 38 5 0, Resp.ok 3 []),
             (Call.bind 3 sha1_sa 88, Resp.ok 0 []),
             (Call.accept 3 0 0, Resp.ok 4 []),
             (Call.sendto 4 [0x61, 0x62, 0x63] 3 0x8000 0 0, Resp.ok 1 []),
             (Call.read 4 20, Resp.ok 20
               [0x86, 0xf7, 0xe4, 0x37, 0xfa, 0xa5, 0xa7, 0xfc, 0xe1, 0x5d,
                0x1d, 0xdc, 0xb9, 0xea, 0xea, 0xea, 0x37, 0x76, 0x67, 0xb8]),
             (Call.close 4, Resp.ok 0 []),
             (Call.close 3, Resp.ok 0 [])]) := by decide
  have hdef : SHA1 (defaultHasher crypto_sha1_Sum) [0x61, 0x62, 0x63] ()
        = some (([0xa9, 0x99, 0x3e, 0x36, 0x47, 0x06, 0x81, 0x6a, 0xba, 0x3e,
                  0x25, 0x71, 0x78, 0x50, 0xc2, 0x6c, 0x9c, 0xd0, 0xd8, 0x9d], none), ()) := by
    decide
  refine ⟨simKernel_contract _ _, hlin, hdef, ?_⟩
  rintro ⟨md, w, h1, h2⟩
  rw [hlin] at h1
  rw [hdef] at h2
  simp only [Option.some.injEq, Prod.mk.injEq, and_true] at h1 h2
  have h3 := h1.1.trans h2.symm
  revert h3
  decide

set_option maxRecDepth 100000 in
/-- Witness of C9: a kernel that honours the AF_ALG contract for SHA-1 and takes
every send in full. On "abc" the Linux build returns a9993e36..., the test vector
of the specification, without error, and so does the portable build. -/
theorem C9_backends_agree_witness :
    KernelContract (simKernel crypto_sha1_Sum (fun len => len)) crypto_sha1_Sum
    ∧ SHA1 (linuxHasher (simKernel crypto_sha1_Sum (fun len => len))) [0x61, 0x62, 0x63] []
        = some (([0xa9, 0x99, 0x3e, 0x36, 0x47, 0x06, 0x81, 0x6a, 0xba, 0x3e,
                  0x25, 0x71, 0x78, 0x50, 0xc2, 0x6c, 0x9c, 0xd0, 0xd8, 0x9d], none),
            [(Call.socket 38 5 0, Resp.ok 3 []),
             (Call.bind 3 sha1_sa 88, Resp.ok 0 []),
             (Call.accept 3 0 0, Resp.ok 4 []),
             (Call.sendto 4 [0x61, 0x62, 0x63] 3 0x8000 0 0, Resp.ok 3 []),
             (Call.read 4 20, Resp.ok 20
               [0xa9, 0x99, 0x3e, 0x36, 0x47, 0x06, 0x81, 0x6a, 0xba, 0x3e,
                0x25, 0x71, 0x78, 0x50, 0xc2, 0x6c, 0x9c, 0xd0, 0xd8, 0x9d]),
             (Call.close 4, Resp.ok 0 []),
             (Call.close 3, Resp.ok 0 [])])
    ∧ sendResp (simKernel crypto_sha1_Sum (fun len => len)) [] [0x61, 0x62, 0x63] = Resp.ok 3 []
    ∧ SHA1 (defaultHasher crypto_sha1_Sum) [0x61, 0x62, 0x63] ()
        = some (([0xa9, 0x99, 0x3e, 0x36, 0x47, 0x06, 0x81, 0x6a, 0xba, 0x3e,
                  0x25, 0x71, 0x78, 0x50, 0xc2, 0x6c, 0x9c, 0xd0, 0xd8, 0x9d], none), ()) := by
  have hrun : SHA1 (linuxHasher (simKernel crypto_sha1_Sum (fun len => len)))
      [0x61, 0x62, 0x63] []
        = some (([0xa9, 0x99, 0x3e, 0x36, 0x47, 0x06, 0x81, 0x6a, 0xba, 0x3e,
                  0x25, 0x71, 0x78, 0x50, 0xc2, 0x6c, 0x9c, 0xd0, 0xd8, 0x9d], none),
            [(Call.socket 38 5 0, Resp.ok 3 []),
             (Call.bind 3 sha1_sa 88, Resp.ok 0 []),
             (Call.accept 3 0 0, Resp.ok 4 []),
             (Call.sendto 4 [0x61, 0x62, 0x63] 3 0x8000 0 0, Resp.ok 3 []),
             (Call.read 4 20, Resp.ok 20
               [0xa9, 0x99, 0x3e, 0x36, 0x47, 0x06, 0x81, 0x6a, 0xba, 0x3e,
                0x25, 0x71, 0x78, 0x50, 0xc2, 0x6c, 0x9c, 0xd0, 0xd8, 0x9d]),
             (Call.close 4, Resp.ok 0 []),
             (Call.close 3, Resp.ok 0 [])]) := by decide
  have hsend : sendResp (simKernel crypto_sha1_Sum (fun len => len)) [] [0x61, 0x62, 0x63]
      = Resp.ok 3 [] := by decide
  exact ⟨simKernel_contract _ _, hrun, hsend,
    C9_backends_agree crypto_sha1_Sum (simKernel crypto_sha1_Sum (fun len => len))
      (simKernel_contract _ _) [0x61, 0x62, 0x63] [] _ _ hrun (fun _ => ⟨[], hsend⟩)⟩

end AfAlg
